import Mathlib

/-
  Verification of the extra-output coordination subsystem of GalSim
  (src/galsim/config/extra.py), as a shallow embedding in Lean 4.

  Modelling conventions:
  * Python dicts that are only read through membership tests and get-style
    access are modelled as association lists with first-match lookup; a
    dict update d[k] = v is modelled by consing the pair (k, v) in front,
    which yields the same lookup semantics.
  * The opaque configuration-value resolver (galsim.config.ParseValue and
    the default-extension helper) is modelled by storing the already
    resolved values in the corresponding fields; an absent configuration
    key is an Option that is none.
  * The file system (os.path.isfile) and the success or failure of each
    write attempt of a builder are oracles passed in as functions.
  * Builder hooks of the registered plugin builders are not part of the
    shown sources; the coordinator is modelled as emitting a trace of hook
    invocation events, which is what the claims quantify over.
-/

namespace GalSim

/-- Names of registered extra output kinds: the keys of the module-level dict
valid_extra_outputs in extra.py. -/
abbrev Key := String

/-- Association-list lookup with first-match semantics, modelling a Python
dict read d.get(key) for dicts represented as lists of pairs. -/
def assocLookup {α β : Type} [DecidableEq α] : List (α × β) → α → Option β
  | [], _ => none
  | (a, b) :: rest, key => if a = key then some b else assocLookup rest key

/-- Configuration field of one extra output kind, i.e. the dict
config["output"][key] of extra.py, restricted to the entries the coordinator
reads. Values are already resolved (ParseValue is opaque); file_name carries
the default .fits extension already applied. An entry that is absent from
the dict is none. -/
structure FieldSpec where
  file_name : Option String
  dir : Option String
  hdu : Option Int
  deriving DecidableEq, Repr

/-- The config["output"] dict of extra.py, restricted to the entries the
coordinator reads: the per-kind fields plus the run-wide dir, noclobber and
retry-count entries (retry_io_cfg models the entry named retry_io). -/
structure OutputSpec where
  kinds : List (Key × FieldSpec)
  dir : Option String
  noclobber : Option Bool
  retry_io_cfg : Option Nat
  deriving DecidableEq, Repr

/-- The base configuration dict of extra.py, restricted to the entries the
coordinator reads or writes. has_current_nproc models the membership test
for the key current_nproc; image_nproc is some n exactly when config has an
image field with an nproc entry resolving to n. -/
structure Config where
  output : Option OutputSpec
  index_key : String
  extra_last_file : List (Key × String)
  has_current_nproc : Bool
  image_nproc : Option Int
  nimages : Nat
  nobj : List Nat
  file_num : Nat
  image_num : Nat
  start_image_num : Nat
  start_obj_num : Nat
  obj_num : Nat
  deriving DecidableEq, Repr

/-- Trace events recording the builder hook invocations and the skip
decisions made by the coordinator. The initializeHook event records whether
the workspace handed to the builder is manager backed (cross-process safe)
and the length of the preallocated data list. -/
inductive Event where
  | initializeHook : Key → Bool → Nat → Event
  | setupImageHook : Key → Event
  | processStampHook : Key → Nat → Event
  | processImageHook : Key → Nat → List Nat → Event
  | finalizeHook : Key → Event
  | writeFileHook : Key → String → Event
  | writeHduHook : Key → Int → Event
  | skipNoClobber : Key → String → Event
  | skipDuplicate : Key → String → Event
  deriving DecidableEq, Repr

/-- The kind an event belongs to. -/
def eventKey : Event → Key
  | .initializeHook k _ _ => k
  | .setupImageHook k => k
  | .processStampHook k _ => k
  | .processImageHook k _ _ => k
  | .finalizeHook k => k
  | .writeFileHook k _ => k
  | .writeHduHook k _ => k
  | .skipNoClobber k _ => k
  | .skipDuplicate k _ => k

/-- The key list every lifecycle function of extra.py iterates over: the
comprehension [ k for k in valid_extra_outputs.keys() if k in output ]. The
registry is the ordered key list of valid_extra_outputs. -/
def activeKinds (registry : List Key) (output : OutputSpec) : List Key :=
  registry.filter (fun k => (assocLookup output.kinds k).isSome)

/-- The use_manager decision of SetupExtraOutput (extra.py lines 53-56):
true iff current_nproc is not in config, and config contains image.nproc,
and that value resolves to something other than 1. -/
def use_manager (cfg : Config) : Bool :=
  !cfg.has_current_nproc &&
    (match cfg.image_nproc with
     | some n => n != 1
     | none => false)

/-- SetupExtraOutput (extra.py lines 35-98), as the trace of initialize hook
invocations. For each active kind a data list of length config["nimages"]
prefilled with placeholders and an empty scratch dict are allocated, manager
backed exactly when use_manager holds, and the builder initialize hook is
invoked with them; the event records the sharing decision and data length. -/
def SetupExtraOutput (registry : List Key) (cfg : Config) : List Event :=
  match cfg.output with
  | none => []
  | some output =>
    (activeKinds registry output).map
      (fun key => Event.initializeHook key (use_manager cfg) cfg.nimages)

/-- SetupExtraOutputsForImage (extra.py lines 101-111), as the trace of
setupImage hook invocations. -/
def SetupExtraOutputsForImage (registry : List Key) (cfg : Config) : List Event :=
  match cfg.output with
  | none => []
  | some output =>
    (activeKinds registry output).map (fun key => Event.setupImageHook key)

/-- ProcessExtraOutputsForStamp (extra.py lines 113-128), as the trace of
processStamp hook invocations, each receiving config["obj_num"]. -/
def ProcessExtraOutputsForStamp (registry : List Key) (cfg : Config) : List Event :=
  match cfg.output with
  | none => []
  | some output =>
    (activeKinds registry output).map
      (fun key => Event.processStampHook key cfg.obj_num)

/-- The object numbers used for the current image, computed in
ProcessExtraOutputsForImage (extra.py lines 141-151): with
k = image_num - start_image_num, the loop for i in range(k) adds nobj[i] to
start_obj_num (the sum of the first k entries of nobj), and the result is
range(start_obj_num, start_obj_num + nobj[k]). -/
def objNumsForImage (cfg : Config) : List Nat :=
  let k := cfg.image_num - cfg.start_image_num
  let s := cfg.start_obj_num + (cfg.nobj.take k).sum
  (List.range (cfg.nobj.getD k 0)).map (fun i => s + i)

/-- ProcessExtraOutputsForImage (extra.py lines 131-155), as the trace of
processImage hook invocations: each active kind receives the index
image_num - start_image_num and the object number range of this image. -/
def ProcessExtraOutputsForImage (registry : List Key) (cfg : Config) : List Event :=
  match cfg.output with
  | none => []
  | some output =>
    (activeKinds registry output).map
      (fun key => Event.processImageHook key
        (cfg.image_num - cfg.start_image_num) (objNumsForImage cfg))

/-- The total number of allowed WriteFile attempts, from extra.py lines
169-174: retry_io + 1 when the output dict configures retry_io, else 1. -/
def ntriesOf (output : OutputSpec) : Nat :=
  match output.retry_io_cfg with
  | some r => r + 1
  | none => 1

/-- The effective noclobber flag, from extra.py lines 181-184: the resolved
output.noclobber entry when present, else false. -/
def noclobberOf (output : OutputSpec) : Bool :=
  output.noclobber.getD false

/-- Modelled from the spec: the retry wrapper galsim.config.RetryIO is not
among the shown sources (only its call site in extra.py line 227 is). Per
spec section 7, WriteFile is retried up to ntries total attempts with the
same arguments, the first success stops the loop, and exhaustion re-raises
the underlying failure. The oracle succeeds tells whether the i-th attempt
(0-based) succeeds; the second argument is the number of attempts still
allowed and the third the index of the next attempt. Returns the total
number of attempts made and whether the call succeeded. -/
def retryIOModel (succeeds : Nat → Bool) : Nat → Nat → Nat × Bool
  | 0, attempt => (attempt, false)
  | n + 1, attempt =>
    if succeeds attempt then (attempt + 1, true)
    else retryIOModel succeeds n (attempt + 1)

/-- Resolution of the final output path for one kind, mirroring extra.py
lines 197-203: the per-kind dir when present, else the default output dir;
joined with the file name when a directory is given. -/
def resolvedPath (output : OutputSpec) (field : FieldSpec) (base_name : String) : String :=
  let d := match field.dir with
           | some d0 => some d0
           | none => output.dir
  match d with
  | some d0 => d0 ++ "/" ++ base_name
  | none => base_name

/-- The body of the per-kind loop of WriteExtraOutputs (extra.py lines
189-230) for one kind. last is the current record config["extra_last_file"]
for this kind. Returns (newly recorded file name if the write happened,
events emitted, error raised). A kind with no file_name entry is skipped
(probably writing to hdu); a noclobber hit and a duplicate path are skipped
with a log event; otherwise finalize runs, then the write is attempted
through the retry wrapper, and only on success is the record updated. -/
def writeOne (output : OutputSpec) (fsExists : String → Bool) (succeeds : Nat → Bool)
    (last : Option String) (key : Key) (field : FieldSpec) :
    Option String × List Event × Option String :=
  match field.file_name with
  | none => (none, [], none)
  | some base_name =>
    let file_name := resolvedPath output field base_name
    if noclobberOf output && fsExists file_name then
      (none, [Event.skipNoClobber key file_name], none)
    else if last = some file_name then
      (none, [Event.skipDuplicate key file_name], none)
    else
      match retryIOModel succeeds (ntriesOf output) 0 with
      | (_, true) =>
        (some file_name, [Event.finalizeHook key, Event.writeFileHook key file_name], none)
      | (_, false) =>
        (none, [Event.finalizeHook key], some "io failure")

/-- The per-kind loop of WriteExtraOutputs (extra.py lines 189-230), folded
over the active kinds, threading the extra_last_file record. An error
aborts the loop, keeping the record updates made so far (a raised Python
exception does not roll back earlier dict assignments). -/
def writeKinds (output : OutputSpec) (fsExists : String → Bool)
    (writeOk : Key → Nat → Bool) :
    List Key → List (Key × String) → List (Key × String) × List Event × Option String
  | [], last => (last, [], none)
  | key :: rest, last =>
    match assocLookup output.kinds key with
    | none => writeKinds output fsExists writeOk rest last
    | some field =>
      let r := writeOne output fsExists (writeOk key) (assocLookup last key) key field
      let last2 := match r.1 with
                   | some fn => (key, fn) :: last
                   | none => last
      match r.2.2 with
      | some e => (last2, r.2.1, some e)
      | none =>
        let t := writeKinds output fsExists writeOk rest last2
        (t.1, r.2.1 ++ t.2.1, t.2.2)

/-- WriteExtraOutputs (extra.py lines 158-230). Sets config["index_key"] to
"file_num" first, then, when an output section exists, runs the per-kind
write loop over the active kinds. Returns the updated config, the event
trace and the propagated error, if any. -/
def WriteExtraOutputs (registry : List Key) (fsExists : String → Bool)
    (writeOk : Key → Nat → Bool) (cfg : Config) :
    Config × List Event × Option String :=
  let cfg1 := { cfg with index_key := "file_num" }
  match cfg1.output with
  | none => (cfg1, [], none)
  | some output =>
    match writeKinds output fsExists writeOk (activeKinds registry output)
        cfg1.extra_last_file with
    | (last2, evs, err) => ({ cfg1 with extra_last_file := last2 }, evs, err)

/-- The per-kind collection loop of BuildExtraOutputHDUs (extra.py lines
251-267). Artifacts returned by the writeHdu hooks are identified by the
kind that produced them; whFails tells whether the writeHdu hook of a kind
itself raises. A kind with no hdu entry is skipped (probably writing to
file); an hdu number that is not positive or duplicates one already
collected raises; otherwise finalize runs, writeHdu runs, and the artifact
is recorded under its hdu number. -/
def hduLoop (output : OutputSpec) (whFails : Key → Option String) :
    List Key → List (Int × Key) → Except String (List (Int × Key) × List Event)
  | [], hdus => .ok (hdus, [])
  | key :: rest, hdus =>
    match assocLookup output.kinds key with
    | none => hduLoop output whFails rest hdus
    | some field =>
      match field.hdu with
      | none => hduLoop output whFails rest hdus
      | some h =>
        if h ≤ 0 ∨ (assocLookup hdus h).isSome then
          .error "invalid or duplicate hdu"
        else
          match whFails key with
          | some e => .error e
          | none =>
            match hduLoop output whFails rest (hdus ++ [(h, key)]) with
            | .error e => .error e
            | .ok (hdus2, evs) =>
              .ok (hdus2, Event.finalizeHook key :: Event.writeHduHook key h :: evs)

/-- The hdu numbers range(first, len(hdus) + first) checked by extra.py
lines 269-273. -/
def hduRange (first : Int) (n : Nat) : List Int :=
  (List.range n).map (fun (i : Nat) => first + (i : Int))

/-- BuildExtraOutputHDUs (extra.py lines 233-276). Sets config["index_key"]
to "file_num" first; with no output section returns the empty hdu list.
Otherwise collects the hdu artifacts of the active kinds, then verifies
that every number in range(first, len(hdus) + first) was collected, and
returns the artifacts in ascending hdu order together with the trace. -/
def BuildExtraOutputHDUs (registry : List Key) (whFails : Key → Option String)
    (cfg : Config) (first : Int) :
    Config × Except String (List Key × List Event) :=
  let cfg1 := { cfg with index_key := "file_num" }
  match cfg1.output with
  | none => (cfg1, .ok ([], []))
  | some output =>
    match hduLoop output whFails (activeKinds registry output) [] with
    | .error e => (cfg1, .error e)
    | .ok (hdus, evs) =>
      if (hduRange first hdus.length).all (fun h => (assocLookup hdus h).isSome) then
        (cfg1, .ok ((hduRange first hdus.length).filterMap (fun h => assocLookup hdus h), evs))
      else
        (cfg1, .error "Cannot skip hdus")

/-- The writeHdu method of the base class ExtraOutputBuilder (extra.py lines
385-394): raising on every input (the line raise NotImplemented(...) raises
a TypeError, since NotImplemented is not callable, so an error propagates on
every input and no artifact is ever returned). -/
def ExtraOutputBuilder.writeHdu (field : FieldSpec) (base : Config) : Except String Key :=
  .error "the builder class has not overridden writeHdu"

/-- The (hdu number, kind) pairs configured in hdu mode among a key list, in
key order: what hduLoop collects when nothing raises. -/
def configuredSlots (output : OutputSpec) (keys : List Key) : List (Int × Key) :=
  keys.filterMap (fun k =>
    match assocLookup output.kinds k with
    | some field => field.hdu.map (fun h => (h, k))
    | none => none)

/-- The configured hdu number of a kind, if any. -/
def slotOf (output : OutputSpec) (k : Key) : Option Int :=
  match assocLookup output.kinds k with
  | some field => field.hdu
  | none => none

/-- Written from the words of the spec, for comparison with the code: the
slot numbers form a contiguous, duplicate-free run starting at the first
index. A duplicate-free list of n integers all lying in the half-open
interval from first to first + n is exactly the set of those n integers. -/
def contiguousRun (first : Int) (slots : List Int) : Prop :=
  slots.Nodup ∧ ∀ h ∈ slots, first ≤ h ∧ h < first + (slots.length : Int)

instance (first : Int) (slots : List Int) : Decidable (contiguousRun first slots) := by
  unfold contiguousRun
  infer_instance

/-- Adding to the output spec a key that is not in the registry, modelling a
forward-compatible configuration field. -/
def addKind (output : OutputSpec) (k : Key) (f : FieldSpec) : OutputSpec :=
  { output with kinds := (k, f) :: output.kinds }

/-- Whether an Except value is a success. -/
def exceptOk {ε α : Type} : Except ε α → Bool
  | .ok _ => true
  | .error _ => false

/-- Example fixture: a registry holding the natively registered kinds in
registration order. -/
def registryEx : List Key := ["psf", "weight", "badpix", "truth"]

/-- Example fixture: a field configured in file mode. -/
def fieldFileEx : FieldSpec := { file_name := some "psf.fits", dir := none, hdu := none }

/-- Example fixture: a field configured in hdu mode. -/
def fieldHduEx : FieldSpec := { file_name := none, dir := none, hdu := some 1 }

/-- Example fixture: a field with neither a file target nor an hdu target. -/
def fieldEmptyEx : FieldSpec := { file_name := none, dir := none, hdu := none }

/-- Example fixture: an output section with one file-mode kind and one
hdu-mode kind. -/
def outputEx : OutputSpec :=
  { kinds := [("psf", fieldFileEx), ("weight", fieldHduEx)], dir := none,
    noclobber := none, retry_io_cfg := none }

/-- Example fixture: a base configuration in the middle of a three-image
file with object counts [2, 1, 1]. -/
def cfgEx : Config :=
  { output := some outputEx, index_key := "obj_num", extra_last_file := [],
    has_current_nproc := false, image_nproc := some 4, nimages := 3,
    nobj := [2, 1, 1], file_num := 0, image_num := 1, start_image_num := 0,
    start_obj_num := 0, obj_num := 2 }

/-- Example fixture: a configuration with no output section. -/
def cfgNoOut : Config :=
  { output := none, index_key := "obj_num", extra_last_file := [],
    has_current_nproc := false, image_nproc := none, nimages := 1,
    nobj := [1], file_num := 0, image_num := 0, start_image_num := 0,
    start_obj_num := 0, obj_num := 0 }

/-- Example fixture: an output section configuring two additional write
retries for its single file-mode kind. -/
def outputRetryEx : OutputSpec :=
  { kinds := [("psf", fieldFileEx)], dir := none, noclobber := none,
    retry_io_cfg := some 2 }

/-- Example fixture: an output section whose single kind has neither a file
target nor an hdu target. -/
def outputEmptyEx : OutputSpec :=
  { kinds := [("psf", fieldEmptyEx)], dir := none, noclobber := none,
    retry_io_cfg := none }

/-- Example fixture: a configuration whose single active kind has neither
target configured. -/
def cfgEmptyEx : Config :=
  { cfgNoOut with output := some outputEmptyEx }

/-- Example fixture: a registry for the hdu ordering scenario. -/
def registryHduEx : List Key := ["psf", "weight", "badpix"]

/-- Example fixture: three hdu-mode kinds configured with slots 2, 1, 3 in
registry order, as in the ordering scenario of the spec. -/
def outputHduEx : OutputSpec :=
  { kinds := [("psf", { file_name := none, dir := none, hdu := some 2 }),
              ("weight", { file_name := none, dir := none, hdu := some 1 }),
              ("badpix", { file_name := none, dir := none, hdu := some 3 })],
    dir := none, noclobber := none, retry_io_cfg := none }

/-- Example fixture: a configuration for the hdu ordering scenario. -/
def cfgHduEx : Config :=
  { cfgNoOut with output := some outputHduEx }

/-- Example fixture: a single kind configured with hdu slot 0. -/
def outputHdu0Ex : OutputSpec :=
  { kinds := [("psf", { file_name := none, dir := none, hdu := some 0 })],
    dir := none, noclobber := none, retry_io_cfg := none }

/-- Example fixture: a configuration with a single kind at hdu slot 0. -/
def cfgHdu0Ex : Config :=
  { cfgNoOut with output := some outputHdu0Ex }

/-- Whether an event is a writeFileHook invocation for the given kind. -/
def isWriteFor (key : Key) : Event → Bool
  | .writeFileHook k _ => k = key
  | _ => false

/-- Example fixture: an output section with noclobber set and one file-mode
kind. -/
def outputClobberEx : OutputSpec :=
  { kinds := [("psf", fieldFileEx)], dir := none, noclobber := some true,
    retry_io_cfg := none }

/-- Example fixture: a configuration with noclobber set whose kind already
has a recorded last file. -/
def cfgClobberEx : Config :=
  { cfgNoOut with output := some outputClobberEx,
                  extra_last_file := [("psf", "old.fits")] }

theorem assocLookup_cons {α β : Type} [DecidableEq α] (a : α) (b : β)
    (l : List (α × β)) (key : α) :
    assocLookup ((a, b) :: l) key = if a = key then some b else assocLookup l key := rfl

/-- C8: invoking writeHdu on a builder that does not override the base
implementation signals a failure for every input (the base class raises on
every call; the raised object is in fact a TypeError, since the source calls
the non-callable NotImplemented, but an error propagates either way) and
never returns an artifact. -/
theorem C8_writeHdu_base_always_raises :
    ∀ (field : FieldSpec) (base : Config),
      ExtraOutputBuilder.writeHdu field base =
        Except.error "the builder class has not overridden writeHdu" ∧
      exceptOk (ExtraOutputBuilder.writeHdu field base) = false := by
  intro field base
  exact ⟨rfl, rfl⟩

/-- C3: the manager-backed (cross-process safe) workspace is chosen iff the
run is not already inside a worker process (no current_nproc entry) and the
configured image.nproc resolves to something other than exactly 1; every
workspace allocated by SetupExtraOutput is manager backed exactly under that
decision, with the data list preallocated to the image count. -/
theorem C3_use_manager_iff :
    ∀ (registry : List Key) (cfg : Config) (output : OutputSpec),
      cfg.output = some output →
      (use_manager cfg = true ↔
        cfg.has_current_nproc = false ∧ ∃ n, cfg.image_nproc = some n ∧ n ≠ 1) ∧
      ∀ ev ∈ SetupExtraOutput registry cfg,
        ∃ key, ev = Event.initializeHook key (use_manager cfg) cfg.nimages := by
  intro registry cfg output hout
  constructor
  · unfold use_manager
    cases hc : cfg.has_current_nproc <;> cases hn : cfg.image_nproc <;>
      simp [hc, hn]
  · intro ev hev
    unfold SetupExtraOutput at hev
    rw [hout] at hev
    rcases List.mem_map.mp hev with ⟨key, _, hkey⟩
    exact ⟨key, hkey.symm⟩

/-- Witness for C3 at a concrete configuration. -/
theorem C3_use_manager_iff_witness :
    (use_manager cfgEx = true ↔
      cfgEx.has_current_nproc = false ∧ ∃ n, cfgEx.image_nproc = some n ∧ n ≠ 1) ∧
    ∀ ev ∈ SetupExtraOutput registryEx cfgEx,
      ∃ key, ev = Event.initializeHook key (use_manager cfgEx) cfgEx.nimages :=
  C3_use_manager_iff registryEx cfgEx outputEx rfl

/-- Unfolding lemma for WriteExtraOutputs in terms of the per-kind loop. -/
theorem WriteExtraOutputs_eq (registry : List Key) (fsExists : String → Bool)
    (writeOk : Key → Nat → Bool) (cfg : Config) :
    WriteExtraOutputs registry fsExists writeOk cfg =
      match cfg.output with
      | none => ({ cfg with index_key := "file_num" }, [], none)
      | some output =>
        ({ cfg with
            index_key := "file_num",
            extra_last_file :=
              (writeKinds output fsExists writeOk (activeKinds registry output)
                cfg.extra_last_file).1 },
         (writeKinds output fsExists writeOk (activeKinds registry output)
            cfg.extra_last_file).2.1,
         (writeKinds output fsExists writeOk (activeKinds registry output)
            cfg.extra_last_file).2.2) := by
  cases h : cfg.output <;> simp [WriteExtraOutputs, h]

/-- The config returned by BuildExtraOutputHDUs only changes index_key. -/
theorem BuildHdus_fst (registry : List Key) (whFails : Key → Option String)
    (cfg : Config) (first : Int) :
    (BuildExtraOutputHDUs registry whFails cfg first).1 =
      { cfg with index_key := "file_num" } := by
  unfold BuildExtraOutputHDUs
  cases h : cfg.output <;> simp [h]
  split
  · rfl
  · split <;> rfl

/-- C10: both write phase entry points unconditionally set index_key to
file_num first, even with no output section (in which case nothing else
happens and nothing is written); WriteExtraOutputs modifies no config entry
other than index_key and extra_last_file, and BuildExtraOutputHDUs modifies
nothing but index_key. -/
theorem C10_index_key_frame :
    ∀ (registry : List Key) (fsExists : String → Bool) (writeOk : Key → Nat → Bool)
      (whFails : Key → Option String) (cfg : Config) (first : Int),
      (WriteExtraOutputs registry fsExists writeOk cfg).1.index_key = "file_num" ∧
      (BuildExtraOutputHDUs registry whFails cfg first).1 =
        { cfg with index_key := "file_num" } ∧
      (WriteExtraOutputs registry fsExists writeOk cfg).1 =
        { cfg with
            index_key := "file_num",
            extra_last_file :=
              (WriteExtraOutputs registry fsExists writeOk cfg).1.extra_last_file } ∧
      (cfg.output = none →
        WriteExtraOutputs registry fsExists writeOk cfg =
          ({ cfg with index_key := "file_num" }, [], none) ∧
        BuildExtraOutputHDUs registry whFails cfg first =
          ({ cfg with index_key := "file_num" }, .ok ([], []))) := by
  intro registry fsE wOk whF cfg first
  refine ⟨?_, BuildHdus_fst registry whF cfg first, ?_, ?_⟩
  · rw [WriteExtraOutputs_eq]
    cases h : cfg.output <;> simp
  · rw [WriteExtraOutputs_eq]
    cases h : cfg.output <;> simp
  · intro hnone
    constructor
    · rw [WriteExtraOutputs_eq, hnone]
    · unfold BuildExtraOutputHDUs
      simp [hnone]

/-- Witness for C10 at a concrete configuration with no output section. -/
theorem C10_index_key_frame_witness :
    WriteExtraOutputs registryEx (fun _ => false) (fun _ _ => true) cfgNoOut =
      ({ cfgNoOut with index_key := "file_num" }, [], none) ∧
    BuildExtraOutputHDUs registryEx (fun _ => none) cfgNoOut 1 =
      ({ cfgNoOut with index_key := "file_num" }, .ok ([], [])) :=
  (C10_index_key_frame registryEx (fun _ => false) (fun _ _ => true)
    (fun _ => none) cfgNoOut 1).2.2.2 rfl

/-- C7: each active builder processImage hook receives index equal to the
0-based position of the image within the file (image_num minus
start_image_num) and obj_nums equal to the contiguous range of object
numbers of length nobj[k] starting at start_obj_num plus the sum of the
object counts of the earlier images in the file, where k is that
position. -/
theorem C7_processImage_index_objnums :
    ∀ (registry : List Key) (cfg : Config) (output : OutputSpec) (key : Key),
      cfg.output = some output →
      cfg.start_image_num ≤ cfg.image_num →
      ∀ (hk : cfg.image_num - cfg.start_image_num < cfg.nobj.length),
        key ∈ activeKinds registry output →
        Event.processImageHook key (cfg.image_num - cfg.start_image_num)
            (objNumsForImage cfg) ∈ ProcessExtraOutputsForImage registry cfg ∧
        (objNumsForImage cfg).length =
          cfg.nobj.get ⟨cfg.image_num - cfg.start_image_num, hk⟩ ∧
        ∀ (j : Nat) (hj : j < (objNumsForImage cfg).length),
          (objNumsForImage cfg).get ⟨j, hj⟩ =
            cfg.start_obj_num +
              (cfg.nobj.take (cfg.image_num - cfg.start_image_num)).sum + j := by
  intro registry cfg output key hout _hle hk hkey
  refine ⟨?_, ?_, ?_⟩
  · unfold ProcessExtraOutputsForImage
    rw [hout]
    exact List.mem_map.mpr ⟨key, hkey, rfl⟩
  · simp only [objNumsForImage, List.length_map, List.length_range,
      List.getD, List.get_eq_getElem]
    rw [List.get?_eq_getElem?, List.getElem?_eq_getElem hk, Option.getD_some]
  · intro j hj
    simp only [objNumsForImage] at hj ⊢
    simp [List.get_eq_getElem, List.getElem_map, List.getElem_range, Nat.add_assoc]

/-- Witness for C7 at a concrete configuration: image 1 of 3 with object
counts [2, 1, 1], so data index 1 and one object number starting at 2. -/
theorem C7_processImage_index_objnums_witness :
    cfgEx.start_image_num ≤ cfgEx.image_num ∧
    Event.processImageHook "psf" 1 (objNumsForImage cfgEx) ∈
      ProcessExtraOutputsForImage registryEx cfgEx :=
  ⟨by decide,
    (C7_processImage_index_objnums registryEx cfgEx outputEx "psf" rfl (by decide)
      (by decide) (by decide)).1⟩

/-- Case analysis of the per-kind write step writeOne: it either does
nothing (no file target), skips with a single log event and no record
update, finalizes and then writes, or finalizes and then fails with no
record update. -/
theorem writeOne_cases (output : OutputSpec) (fsExists : String → Bool)
    (succeeds : Nat → Bool) (last : Option String) (key : Key) (field : FieldSpec) :
    writeOne output fsExists succeeds last key field = (none, [], none) ∨
    (∃ fn, writeOne output fsExists succeeds last key field =
      (none, [Event.skipNoClobber key fn], none)) ∨
    (∃ fn, writeOne output fsExists succeeds last key field =
      (none, [Event.skipDuplicate key fn], none)) ∨
    (∃ fn, writeOne output fsExists succeeds last key field =
      (some fn, [Event.finalizeHook key, Event.writeFileHook key fn], none)) ∨
    writeOne output fsExists succeeds last key field =
      (none, [Event.finalizeHook key], some "io failure") := by
  cases hfn : field.file_name with
  | none =>
    refine Or.inl ?_
    unfold writeOne
    rw [hfn]
  | some bn =>
    by_cases h1 : (noclobberOf output && fsExists (resolvedPath output field bn)) = true
    · refine Or.inr (Or.inl ⟨resolvedPath output field bn, ?_⟩)
      unfold writeOne
      rw [hfn]
      dsimp only
      rw [if_pos h1]
    · by_cases h2 : last = some (resolvedPath output field bn)
      · refine Or.inr (Or.inr (Or.inl ⟨resolvedPath output field bn, ?_⟩))
        unfold writeOne
        rw [hfn]
        dsimp only
        rw [if_neg h1, if_pos h2]
      · rcases hr : retryIOModel succeeds (ntriesOf output) 0 with ⟨att, b⟩
        cases b
        · refine Or.inr (Or.inr (Or.inr (Or.inr ?_)))
          unfold writeOne
          rw [hfn]
          dsimp only
          rw [if_neg h1, if_neg h2, hr]
        · refine Or.inr (Or.inr (Or.inr (Or.inl ⟨resolvedPath output field bn, ?_⟩)))
          unfold writeOne
          rw [hfn]
          dsimp only
          rw [if_neg h1, if_neg h2, hr]

/-- Every event emitted by the per-kind write step belongs to that kind. -/
theorem writeOne_eventKey (output : OutputSpec) (fsExists : String → Bool)
    (succeeds : Nat → Bool) (last : Option String) (key : Key) (field : FieldSpec) :
    ∀ ev ∈ (writeOne output fsExists succeeds last key field).2.1,
      eventKey ev = key := by
  intro ev hev
  rcases writeOne_cases output fsExists succeeds last key field with
      h | ⟨fn, h⟩ | ⟨fn, h⟩ | ⟨fn, h⟩ | h <;> rw [h] at hev
  · simp at hev
  · simp at hev; subst hev; rfl
  · simp at hev; subst hev; rfl
  · simp at hev; rcases hev with rfl | rfl <;> rfl
  · simp at hev; subst hev; rfl

/-- Step equation of the write loop for an unregistered or inactive key. -/
theorem writeKinds_cons_none (output : OutputSpec) (fsExists : String → Bool)
    (writeOk : Key → Nat → Bool) (key : Key) (rest : List Key)
    (last : List (Key × String)) (hf : assocLookup output.kinds key = none) :
    writeKinds output fsExists writeOk (key :: rest) last =
      writeKinds output fsExists writeOk rest last := by
  rw [writeKinds, hf]

/-- Step equation of the write loop for an active key whose write step
skipped (no file target, noclobber hit, or duplicate path). -/
theorem writeKinds_cons_skip (output : OutputSpec) (fsExists : String → Bool)
    (writeOk : Key → Nat → Bool) (key : Key) (rest : List Key)
    (last : List (Key × String)) (field : FieldSpec) (evs : List Event)
    (hf : assocLookup output.kinds key = some field)
    (hw : writeOne output fsExists (writeOk key) (assocLookup last key) key field =
      (none, evs, none)) :
    writeKinds output fsExists writeOk (key :: rest) last =
      ((writeKinds output fsExists writeOk rest last).1,
       evs ++ (writeKinds output fsExists writeOk rest last).2.1,
       (writeKinds output fsExists writeOk rest last).2.2) := by
  rw [writeKinds, hf]
  dsimp only
  rw [hw]

/-- Step equation of the write loop for an active key whose write step
failed after exhausting its attempts. -/
theorem writeKinds_cons_fail (output : OutputSpec) (fsExists : String → Bool)
    (writeOk : Key → Nat → Bool) (key : Key) (rest : List Key)
    (last : List (Key × String)) (field : FieldSpec) (evs : List Event) (e : String)
    (hf : assocLookup output.kinds key = some field)
    (hw : writeOne output fsExists (writeOk key) (assocLookup last key) key field =
      (none, evs, some e)) :
    writeKinds output fsExists writeOk (key :: rest) last = (last, evs, some e) := by
  rw [writeKinds, hf]
  dsimp only
  rw [hw]

/-- Step equation of the write loop for an active key whose write step
wrote its file and recorded the path. -/
theorem writeKinds_cons_wrote (output : OutputSpec) (fsExists : String → Bool)
    (writeOk : Key → Nat → Bool) (key : Key) (rest : List Key)
    (last : List (Key × String)) (field : FieldSpec) (evs : List Event) (fn : String)
    (hf : assocLookup output.kinds key = some field)
    (hw : writeOne output fsExists (writeOk key) (assocLookup last key) key field =
      (some fn, evs, none)) :
    writeKinds output fsExists writeOk (key :: rest) last =
      ((writeKinds output fsExists writeOk rest ((key, fn) :: last)).1,
       evs ++ (writeKinds output fsExists writeOk rest ((key, fn) :: last)).2.1,
       (writeKinds output fsExists writeOk rest ((key, fn) :: last)).2.2) := by
  rw [writeKinds, hf]
  dsimp only
  rw [hw]

/-- The write step never both records a written file and raises. -/
theorem writeOne_not_wrote_fail (output : OutputSpec) (fsExists : String → Bool)
    (succeeds : Nat → Bool) (last : Option String) (key : Key) (field : FieldSpec)
    (fn : String) (evs : List Event) (e : String) :
    writeOne output fsExists succeeds last key field ≠ (some fn, evs, some e) := by
  intro hw
  rcases writeOne_cases output fsExists succeeds last key field with
      h | ⟨fn0, h⟩ | ⟨fn0, h⟩ | ⟨fn0, h⟩ | h <;> rw [h] at hw <;>
    simp only [Prod.mk.injEq] at hw <;> simp at hw

/-- Every event emitted by the per-kind write loop belongs to one of the
processed kinds. -/
theorem writeKinds_eventKey (output : OutputSpec) (fsExists : String → Bool)
    (writeOk : Key → Nat → Bool) :
    ∀ (keys : List Key) (last : List (Key × String)) (ev : Event),
      ev ∈ (writeKinds output fsExists writeOk keys last).2.1 →
      eventKey ev ∈ keys := by
  intro keys
  induction keys with
  | nil => intro last ev hev; rw [writeKinds] at hev; simp at hev
  | cons key rest ih =>
    intro last ev hev
    cases hf : assocLookup output.kinds key with
    | none =>
      rw [writeKinds_cons_none output fsExists writeOk key rest last hf] at hev
      exact List.mem_cons_of_mem _ (ih last ev hev)
    | some field =>
      have hkey := writeOne_eventKey output fsExists (writeOk key)
        (assocLookup last key) key field
      rcases hw : writeOne output fsExists (writeOk key)
          (assocLookup last key) key field with ⟨wrote, evs, err⟩
      rw [hw] at hkey
      simp only at hkey
      cases wrote with
      | none =>
        cases err with
        | some e =>
          rw [writeKinds_cons_fail output fsExists writeOk key rest last field
            evs e hf hw] at hev
          exact (hkey ev hev) ▸ List.mem_cons_self key rest
        | none =>
          rw [writeKinds_cons_skip output fsExists writeOk key rest last field
            evs hf hw] at hev
          rcases List.mem_append.mp hev with h1 | h1
          · exact (hkey ev h1) ▸ List.mem_cons_self key rest
          · exact List.mem_cons_of_mem _ (ih _ ev h1)
      | some fn =>
        cases err with
        | some e =>
          exact absurd hw (writeOne_not_wrote_fail output fsExists
            (writeOk key) (assocLookup last key) key field fn evs e)
        | none =>
          rw [writeKinds_cons_wrote output fsExists writeOk key rest last field
            evs fn hf hw] at hev
          rcases List.mem_append.mp hev with h1 | h1
          · exact (hkey ev h1) ▸ List.mem_cons_self key rest
          · exact List.mem_cons_of_mem _ (ih _ ev h1)

/-- Membership in the configured hdu-mode slots: the producing kind is among
the keys and carries that hdu number. -/
theorem configuredSlots_mem (output : OutputSpec) (keys : List Key) (p : Int × Key) :
    p ∈ configuredSlots output keys → p.2 ∈ keys ∧ slotOf output p.2 = some p.1 := by
  intro hp
  rcases List.mem_filterMap.mp hp with ⟨k, hk, hmk⟩
  cases hfk : assocLookup output.kinds k with
  | none => rw [hfk] at hmk; simp at hmk
  | some field =>
    rw [hfk] at hmk
    simp only [Option.map_eq_some'] at hmk
    rcases hmk with ⟨h, hh, hph⟩
    rcases hph.symm with rfl
    exact ⟨hk, by simp [slotOf, hfk, hh]⟩

/-- A successful run of the hdu collection loop returns the accumulated
slots followed by the configured slots of the processed keys, in key order,
and the trace has one finalize hook immediately before each writeHdu
hook. -/
theorem hduLoop_ok (output : OutputSpec) (whFails : Key → Option String) :
    ∀ (keys : List Key) (acc hdus : List (Int × Key)) (evs : List Event),
      hduLoop output whFails keys acc = .ok (hdus, evs) →
      hdus = acc ++ configuredSlots output keys ∧
      evs = (configuredSlots output keys).flatMap
        (fun p => [Event.finalizeHook p.2, Event.writeHduHook p.2 p.1]) := by
  intro keys
  induction keys with
  | nil =>
    intro acc hdus evs h
    rw [hduLoop] at h
    simp only [Except.ok.injEq, Prod.mk.injEq] at h
    simp [← h.1, ← h.2, configuredSlots]
  | cons key rest ih =>
    intro acc hdus evs h
    rw [hduLoop] at h
    cases hfk : assocLookup output.kinds key with
    | none =>
      rw [hfk] at h
      dsimp only at h
      have := ih acc hdus evs h
      simpa [configuredSlots, hfk] using this
    | some field =>
      rw [hfk] at h
      dsimp only at h
      cases hh : field.hdu with
      | none =>
        rw [hh] at h
        dsimp only at h
        have := ih acc hdus evs h
        simp only [configuredSlots, List.filterMap_cons, hfk, hh] at this ⊢
        simpa using this
      | some hn =>
        rw [hh] at h
        dsimp only at h
        split at h
        · exact absurd h (by simp)
        · cases hwf : whFails key with
          | some e => rw [hwf] at h; exact absurd h (by simp)
          | none =>
            rw [hwf] at h
            rcases hrec : hduLoop output whFails rest (acc ++ [(hn, key)]) with e | ⟨hdus2, evs2⟩
            · rw [hrec] at h; exact absurd h (by simp)
            · rw [hrec] at h
              simp only [Except.ok.injEq, Prod.mk.injEq] at h
              rcases ih _ _ _ hrec with ⟨h1, h2⟩
              constructor
              · rw [← h.1, h1]
                simp [configuredSlots, List.filterMap_cons, hfk, hh]
              · rw [← h.2, h2]
                simp [configuredSlots, List.filterMap_cons, hfk, hh]

/-- C6: every lifecycle function iterates exactly over the registered kind
names that also appear as keys of the output specification, in registry
iteration order (the active kinds are a sublist of the registry); a
registered kind absent from the output spec never has any hook invoked; an
output key that is not registered is silently ignored (adding one changes
nothing); and the write phases emit events only for active kinds. -/
theorem C6_registry_filtering :
    ∀ (registry : List Key) (output : OutputSpec),
      (∀ k, k ∈ activeKinds registry output ↔
        (k ∈ registry ∧ (assocLookup output.kinds k).isSome)) ∧
      (activeKinds registry output).Sublist registry ∧
      (∀ k0 f, k0 ∉ registry →
        activeKinds registry (addKind output k0 f) = activeKinds registry output) ∧
      ∀ cfg : Config, cfg.output = some output →
        ((SetupExtraOutput registry cfg).map eventKey = activeKinds registry output ∧
         (SetupExtraOutputsForImage registry cfg).map eventKey =
           activeKinds registry output ∧
         (ProcessExtraOutputsForStamp registry cfg).map eventKey =
           activeKinds registry output ∧
         (ProcessExtraOutputsForImage registry cfg).map eventKey =
           activeKinds registry output) ∧
        (∀ (fsExists : String → Bool) (writeOk : Key → Nat → Bool) (ev : Event),
          ev ∈ (WriteExtraOutputs registry fsExists writeOk cfg).2.1 →
          eventKey ev ∈ activeKinds registry output) ∧
        (∀ (whFails : Key → Option String) (first : Int) arts evs,
          (BuildExtraOutputHDUs registry whFails cfg first).2 = .ok (arts, evs) →
          ∀ ev ∈ evs, eventKey ev ∈ activeKinds registry output) := by
  intro registry output
  refine ⟨?_, List.filter_sublist _, ?_, ?_⟩
  · intro k
    simp [activeKinds, List.mem_filter]
  · intro k0 f hk0
    unfold activeKinds
    apply List.filter_congr
    intro k hk
    have hne : ¬ (k0 = k) := fun h => hk0 (h ▸ hk)
    simp [addKind, assocLookup_cons, hne]
  · intro cfg hout
    refine ⟨⟨?_, ?_, ?_, ?_⟩, ?_, ?_⟩
    · unfold SetupExtraOutput
      rw [hout]
      simp [eventKey, List.map_map, Function.comp_def]
    · unfold SetupExtraOutputsForImage
      rw [hout]
      simp [eventKey, List.map_map, Function.comp_def]
    · unfold ProcessExtraOutputsForStamp
      rw [hout]
      simp [eventKey, List.map_map, Function.comp_def]
    · unfold ProcessExtraOutputsForImage
      rw [hout]
      simp [eventKey, List.map_map, Function.comp_def]
    · intro fsExists writeOk ev hev
      rw [WriteExtraOutputs_eq, hout] at hev
      dsimp only at hev
      exact writeKinds_eventKey output fsExists writeOk _ _ ev hev
    · intro whF first arts evs hok ev hev
      unfold BuildExtraOutputHDUs at hok
      rw [hout] at hok
      dsimp only at hok
      rcases hl : hduLoop output whF (activeKinds registry output) [] with e | p
      · rw [hl] at hok
        exact absurd hok (by simp)
      · rcases p with ⟨hdus, evs0⟩
        rw [hl] at hok
        dsimp only at hok
        split at hok
        · simp only [Except.ok.injEq, Prod.mk.injEq] at hok
          rcases hok with ⟨_, hevs⟩
          rcases hduLoop_ok output whF _ _ _ _ hl with ⟨_, hevs0⟩
          rw [← hevs, hevs0] at hev
          rcases List.mem_flatMap.mp hev with ⟨q, hq, hevq⟩
          have hkeyq := (configuredSlots_mem output _ q hq).1
          simp only [List.mem_cons, List.mem_singleton] at hevq
          rcases hevq with rfl | rfl | h0
          · exact hkeyq
          · exact hkeyq
          · exact absurd h0 (by simp)
        · exact absurd hok (by simp)

/-- Witness for C6 at a concrete registry and output section. -/
theorem C6_registry_filtering_witness :
    (SetupExtraOutputsForImage registryEx cfgEx).map eventKey =
      activeKinds registryEx outputEx ∧
    activeKinds registryEx (addKind outputEx "unknown" fieldEmptyEx) =
      activeKinds registryEx outputEx :=
  ⟨(((C6_registry_filtering registryEx outputEx).2.2.2 cfgEx rfl).1).2.1,
   (C6_registry_filtering registryEx outputEx).2.2.1 "unknown" fieldEmptyEx (by decide)⟩

/-- When every allowed attempt fails, the retry loop makes exactly the
allowed number of attempts and reports failure. -/
theorem retryIOModel_all_fail (succeeds : Nat → Bool) :
    ∀ (n a : Nat), (∀ i, a ≤ i → i < a + n → succeeds i = false) →
      retryIOModel succeeds n a = (a + n, false) := by
  intro n
  induction n with
  | zero => intro a _; simp [retryIOModel]
  | succ m ih =>
    intro a h
    have hfa : succeeds a = false := h a (le_refl a) (by omega)
    have hrec := ih (a + 1) (fun i h1 h2 => h i (by omega) (by omega))
    rw [retryIOModel, hfa]
    simp only [Bool.false_eq_true, if_false, hrec]
    have : a + 1 + m = a + (m + 1) := by omega
    rw [this]

/-- A first success at attempt j stops the retry loop after j + 1 total
attempts with a success report. -/
theorem retryIOModel_first_success (succeeds : Nat → Bool) :
    ∀ (n a j : Nat), a ≤ j → j < a + n →
      (∀ i, a ≤ i → i < j → succeeds i = false) → succeeds j = true →
      retryIOModel succeeds n a = (j + 1, true) := by
  intro n
  induction n with
  | zero => intro a j h1 h2; omega
  | succ m ih =>
    intro a j h1 h2 h3 h4
    rcases Nat.eq_or_lt_of_le h1 with rfl | hlt
    · rw [retryIOModel, h4]
      simp
    · have hfa : succeeds a = false := h3 a (le_refl a) hlt
      rw [retryIOModel, hfa]
      simp only [Bool.false_eq_true, if_false]
      exact ih (a + 1) j hlt (by omega) (fun i hi1 hi2 => h3 i (by omega) hi2) h4

/-- C5 (spec-modelled retry wrapper): the write step allows exactly
retry_io + 1 total attempts when retry_io is configured and exactly 1 when
it is not; when every allowed attempt fails, exactly that many attempts are
made and the per-kind write step propagates the failure as an error (no
record update, only the finalize hook having run); a first success at
attempt j < ntries stops the loop after j + 1 attempts. -/
theorem C5_retry_attempts :
    ∀ (output : OutputSpec) (succeeds : Nat → Bool),
      (∀ r, output.retry_io_cfg = some r → ntriesOf output = r + 1) ∧
      (output.retry_io_cfg = none → ntriesOf output = 1) ∧
      ((∀ i, i < ntriesOf output → succeeds i = false) →
        retryIOModel succeeds (ntriesOf output) 0 = (ntriesOf output, false) ∧
        ∀ (fsExists : String → Bool) (last : Option String) (key : Key)
          (field : FieldSpec) (bn : String),
          field.file_name = some bn →
          (noclobberOf output && fsExists (resolvedPath output field bn)) = false →
          last ≠ some (resolvedPath output field bn) →
          writeOne output fsExists succeeds last key field =
            (none, [Event.finalizeHook key], some "io failure")) ∧
      (∀ j, j < ntriesOf output → (∀ i, i < j → succeeds i = false) →
        succeeds j = true →
        retryIOModel succeeds (ntriesOf output) 0 = (j + 1, true)) := by
  intro output succeeds
  refine ⟨?_, ?_, ?_, ?_⟩
  · intro r hr
    simp [ntriesOf, hr]
  · intro hr
    simp [ntriesOf, hr]
  · intro hfail
    have hall : retryIOModel succeeds (ntriesOf output) 0 = (ntriesOf output, false) := by
      have := retryIOModel_all_fail succeeds (ntriesOf output) 0
        (fun i h1 h2 => hfail i (by omega))
      simpa using this
    refine ⟨hall, ?_⟩
    intro fsExists last key field bn hfn hcl hdup
    unfold writeOne
    rw [hfn]
    dsimp only
    rw [if_neg (by simp [hcl]), if_neg hdup, hall]
  · intro j hj hbefore hj2
    exact retryIOModel_first_success succeeds (ntriesOf output) 0 j (Nat.zero_le j)
      (by omega) (fun i h1 h2 => hbefore i h2) hj2

/-- Witness for C5: with retry_io = 2 there are 3 allowed attempts; all
three failing makes exactly 3 attempts and the per-kind write step fails;
an immediate success stops after 1 attempt. -/
theorem C5_retry_attempts_witness :
    retryIOModel (fun _ => false) (ntriesOf outputRetryEx) 0 = (3, false) ∧
    retryIOModel (fun _ => true) (ntriesOf outputRetryEx) 0 = (1, true) ∧
    writeOne outputRetryEx (fun _ => false) (fun _ => false) none "psf" fieldFileEx =
      (none, [Event.finalizeHook "psf"], some "io failure") :=
  ⟨((C5_retry_attempts outputRetryEx (fun _ => false)).2.2.1 (fun _ _ => rfl)).1,
   (C5_retry_attempts outputRetryEx (fun _ => true)).2.2.2 0 (by decide)
     (fun i hi => absurd hi (Nat.not_lt_zero i)) rfl,
   ((C5_retry_attempts outputRetryEx (fun _ => false)).2.2.1 (fun _ _ => rfl)).2
     (fun _ => false) none "psf" fieldFileEx "psf.fits" rfl (by decide) (by decide)⟩

/-- Inversion of the per-kind write step in the case where the write
happened: the recorded name is the resolved path, the trace is exactly one
finalize hook followed by the write hook, no error is raised, and neither
skip condition held. -/
theorem writeOne_wrote (output : OutputSpec) (fsExists : String → Bool)
    (succeeds : Nat → Bool) (last : Option String) (key : Key) (field : FieldSpec)
    (fn : String) (evs : List Event) (err : Option String) :
    writeOne output fsExists succeeds last key field = (some fn, evs, err) →
    ∃ bn, field.file_name = some bn ∧ fn = resolvedPath output field bn ∧
      evs = [Event.finalizeHook key, Event.writeFileHook key fn] ∧ err = none ∧
      (noclobberOf output && fsExists fn) = false ∧ last ≠ some fn := by
  intro hw
  cases hfn : field.file_name with
  | none =>
    rw [writeOne, hfn] at hw
    exact absurd hw (by simp)
  | some bn =>
    refine ⟨bn, rfl, ?_⟩
    rw [writeOne, hfn] at hw
    dsimp only at hw
    by_cases h1 : (noclobberOf output && fsExists (resolvedPath output field bn)) = true
    · rw [if_pos h1] at hw
      exact absurd hw (by simp)
    · rw [if_neg h1] at hw
      by_cases h2 : last = some (resolvedPath output field bn)
      · rw [if_pos h2] at hw
        exact absurd hw (by simp)
      · rw [if_neg h2] at hw
        rcases hr : retryIOModel succeeds (ntriesOf output) 0 with ⟨att, b⟩
        rw [hr] at hw
        cases b
        · exact absurd hw (by simp)
        · dsimp only at hw
          have hfn2 : resolvedPath output field bn = fn := by
            have := congrArg Prod.fst hw
            simpa using this
          have hevs : evs = [Event.finalizeHook key, Event.writeFileHook key fn] := by
            have := congrArg (fun p => p.2.1) hw
            simp at this
            rw [← this, hfn2]
          have herr : err = none := by
            have := congrArg (fun p => p.2.2) hw
            simpa using this.symm
          refine ⟨hfn2.symm, hevs, herr, ?_, ?_⟩
          · rw [← hfn2]
            exact Bool.of_not_eq_true h1
          · rw [← hfn2]
            exact h2

/-- The record for a kind is unchanged by the write loop when no
writeFileHook event for that kind is emitted. -/
theorem writeKinds_last_unchanged (output : OutputSpec) (fsExists : String → Bool)
    (writeOk : Key → Nat → Bool) :
    ∀ (keys : List Key) (last : List (Key × String)) (key : Key),
      (∀ fn, Event.writeFileHook key fn ∉
        (writeKinds output fsExists writeOk keys last).2.1) →
      assocLookup (writeKinds output fsExists writeOk keys last).1 key =
        assocLookup last key := by
  intro keys
  induction keys with
  | nil => intro last key _; rw [writeKinds]
  | cons k0 rest ih =>
    intro last key hno
    cases hf : assocLookup output.kinds k0 with
    | none =>
      rw [writeKinds_cons_none output fsExists writeOk k0 rest last hf] at hno ⊢
      exact ih last key hno
    | some field =>
      rcases hw : writeOne output fsExists (writeOk k0) (assocLookup last k0) k0 field
        with ⟨wrote, evs, err⟩
      cases wrote with
      | none =>
        cases err with
        | some e =>
          rw [writeKinds_cons_fail output fsExists writeOk k0 rest last field
            evs e hf hw]
        | none =>
          rw [writeKinds_cons_skip output fsExists writeOk k0 rest last field
            evs hf hw] at hno ⊢
          exact ih last key (fun fn h => hno fn (List.mem_append.mpr (Or.inr h)))
      | some fn0 =>
        cases err with
        | some e =>
          exact absurd hw (writeOne_not_wrote_fail output fsExists
            (writeOk k0) (assocLookup last k0) k0 field fn0 evs e)
        | none =>
          rw [writeKinds_cons_wrote output fsExists writeOk k0 rest last field
            evs fn0 hf hw] at hno ⊢
          rcases writeOne_wrote output fsExists (writeOk k0) (assocLookup last k0)
            k0 field fn0 evs none hw with ⟨bn, -, -, hevs, -, -, -⟩
          subst hevs
          have hk0 : ¬ (k0 = key) := by
            intro heq
            subst heq
            exact hno fn0 (List.mem_append.mpr (Or.inl (by simp)))
          have h3 := ih ((k0, fn0) :: last) key
            (fun fn h => hno fn (List.mem_append.mpr (Or.inr h)))
          rw [h3, assocLookup_cons, if_neg hk0]

/-- C9: the per-kind record of the last file written is updated only after
the retried WriteFile call returns successfully: any kind for which no
writeFileHook event was emitted (write skipped by noclobber or duplicate
suppression, kind not file-configured, retry attempts exhausted, or the
phase aborted at an earlier kind) keeps its prior record value. -/
theorem C9_record_unchanged_without_write :
    ∀ (registry : List Key) (fsExists : String → Bool) (writeOk : Key → Nat → Bool)
      (cfg : Config) (key : Key),
      ((WriteExtraOutputs registry fsExists writeOk cfg).2.1.all
        (fun ev => !(isWriteFor key ev))) = true →
      assocLookup (WriteExtraOutputs registry fsExists writeOk cfg).1.extra_last_file
          key =
        assocLookup cfg.extra_last_file key := by
  intro registry fsExists writeOk cfg key hall
  rw [WriteExtraOutputs_eq] at hall ⊢
  cases hout : cfg.output with
  | none => rfl
  | some output =>
    rw [hout] at hall
    dsimp only at hall ⊢
    have hno : ∀ fn, Event.writeFileHook key fn ∉
        (writeKinds output fsExists writeOk (activeKinds registry output)
          cfg.extra_last_file).2.1 := by
      intro fn hmem
      have h2 := List.all_eq_true.mp hall (Event.writeFileHook key fn) hmem
      simp [isWriteFor] at h2
    exact writeKinds_last_unchanged output fsExists writeOk _ _ key hno

/-- Witness for C9: with noclobber set and the target path existing, the
write is skipped and the previously recorded file stays recorded. -/
theorem C9_record_unchanged_without_write_witness :
    assocLookup (WriteExtraOutputs ["psf"] (fun _ => true) (fun _ _ => true)
        cfgClobberEx).1.extra_last_file "psf" =
      assocLookup cfgClobberEx.extra_last_file "psf" :=
  C9_record_unchanged_without_write ["psf"] (fun _ => true) (fun _ _ => true)
    cfgClobberEx "psf" (by decide)

/-- A writeFileHook event can only come from the write branch of the
per-kind write step, for the own kind and the written path. -/
theorem writeOne_writeFile_mem (output : OutputSpec) (fsExists : String → Bool)
    (succeeds : Nat → Bool) (last : Option String) (key : Key) (field : FieldSpec)
    (key2 : Key) (fn : String) :
    Event.writeFileHook key2 fn ∈ (writeOne output fsExists succeeds last key field).2.1 →
    key2 = key ∧ writeOne output fsExists succeeds last key field =
      (some fn, [Event.finalizeHook key, Event.writeFileHook key fn], none) := by
  intro hmem
  rcases writeOne_cases output fsExists succeeds last key field with
      h | ⟨fn0, h⟩ | ⟨fn0, h⟩ | ⟨fn0, h⟩ | h
  · rw [h] at hmem; simp at hmem
  · rw [h] at hmem; simp at hmem
  · rw [h] at hmem; simp at hmem
  · rw [h] at hmem
    simp only [List.mem_cons, List.mem_singleton, List.not_mem_nil, or_false] at hmem
    rcases hmem with hmem | hmem
    · exact absurd hmem (by simp)
    · have h1 : key2 = key := by
        have := congrArg eventKey hmem
        simpa [eventKey] using this
      have h2 : fn = fn0 := by
        cases hmem
        rfl
      exact ⟨h1, by rw [h, h2]⟩
  · rw [h] at hmem; simp at hmem

/-- A kind that is not among the processed keys keeps its record across the
write loop. -/
theorem writeKinds_lookup_preserved (output : OutputSpec) (fsExists : String → Bool)
    (writeOk : Key → Nat → Bool) :
    ∀ (keys : List Key) (last : List (Key × String)) (key : Key), key ∉ keys →
      assocLookup (writeKinds output fsExists writeOk keys last).1 key =
        assocLookup last key := by
  intro keys
  induction keys with
  | nil => intro last key _; rw [writeKinds]
  | cons k0 rest ih =>
    intro last key hnk
    have hk0 : ¬ (k0 = key) := fun h => hnk (h ▸ List.mem_cons_self k0 rest)
    have hrest : key ∉ rest := fun h => hnk (List.mem_cons_of_mem _ h)
    cases hf : assocLookup output.kinds k0 with
    | none =>
      rw [writeKinds_cons_none output fsExists writeOk k0 rest last hf]
      exact ih last key hrest
    | some field =>
      rcases hw : writeOne output fsExists (writeOk k0) (assocLookup last k0) k0 field
        with ⟨wrote, evs, err⟩
      cases wrote with
      | none =>
        cases err with
        | some e =>
          rw [writeKinds_cons_fail output fsExists writeOk k0 rest last field
            evs e hf hw]
        | none =>
          rw [writeKinds_cons_skip output fsExists writeOk k0 rest last field
            evs hf hw]
          exact ih last key hrest
      | some fn0 =>
        cases err with
        | some e =>
          exact absurd hw (writeOne_not_wrote_fail output fsExists
            (writeOk k0) (assocLookup last k0) k0 field fn0 evs e)
        | none =>
          rw [writeKinds_cons_wrote output fsExists writeOk k0 rest last field
            evs fn0 hf hw]
          rw [ih ((k0, fn0) :: last) key hrest, assocLookup_cons, if_neg hk0]

/-- The duplicate-suppression branch of the per-kind write step: when the
record already holds the resolved path and noclobber does not fire, the
step skips with a skipDuplicate event, no write and no record update. -/
theorem writeOne_skip_dup (output : OutputSpec) (fsExists : String → Bool)
    (succeeds : Nat → Bool) (key : Key) (field : FieldSpec) (bn : String)
    (hfn : field.file_name = some bn)
    (hcl : (noclobberOf output && fsExists (resolvedPath output field bn)) = false) :
    writeOne output fsExists succeeds (some (resolvedPath output field bn)) key field =
      (none, [Event.skipDuplicate key (resolvedPath output field bn)], none) := by
  unfold writeOne
  rw [hfn]
  dsimp only
  rw [if_neg (by simp [hcl]), if_pos rfl]

/-- Running the write loop a second time from the record state produced by a
completed first run writes nothing at all, and every kind that wrote in the
first run hits the duplicate-suppression skip in the second. -/
theorem writeKinds_second_run (output : OutputSpec) (fsExists : String → Bool)
    (writeOk : Key → Nat → Bool) :
    ∀ (keys : List Key), keys.Nodup →
      ∀ (last0 last1 : List (Key × String)) (evs1 : List Event),
        writeKinds output fsExists writeOk keys last0 = (last1, evs1, none) →
        (∀ key fn, Event.writeFileHook key fn ∉
          (writeKinds output fsExists writeOk keys last1).2.1) ∧
        (∀ key fn, Event.writeFileHook key fn ∈ evs1 →
          Event.skipDuplicate key fn ∈
            (writeKinds output fsExists writeOk keys last1).2.1) := by
  intro keys
  induction keys with
  | nil =>
    intro _ last0 last1 evs1 h
    rw [writeKinds] at h
    simp only [Prod.mk.injEq] at h
    rcases h with ⟨rfl, rfl, -⟩
    constructor
    · intro key fn
      rw [writeKinds]
      simp
    · intro key fn hmem
      simp at hmem
  | cons key rest ih =>
    intro hnd last0 last1 evs1 h
    rcases List.nodup_cons.mp hnd with ⟨hknr, hndr⟩
    cases hf : assocLookup output.kinds key with
    | none =>
      rw [writeKinds_cons_none output fsExists writeOk key rest last0 hf] at h
      rcases ih hndr last0 last1 evs1 h with ⟨ha, hb⟩
      rw [writeKinds_cons_none output fsExists writeOk key rest last1 hf]
      exact ⟨ha, hb⟩
    | some field =>
      rcases hw1 : writeOne output fsExists (writeOk key) (assocLookup last0 key) key field
        with ⟨wrote, evs, err⟩
      cases wrote with
      | none =>
        cases err with
        | some e =>
          rw [writeKinds_cons_fail output fsExists writeOk key rest last0 field
            evs e hf hw1] at h
          simp only [Prod.mk.injEq] at h
          exact absurd h.2.2 (by simp)
        | none =>
          rw [writeKinds_cons_skip output fsExists writeOk key rest last0 field
            evs hf hw1] at h
          simp only [Prod.mk.injEq] at h
          rcases h with ⟨hlast, hevs1, herr⟩
          have hrec1 : writeKinds output fsExists writeOk rest last0 =
              (last1, (writeKinds output fsExists writeOk rest last0).2.1, none) := by
            rw [← hlast, ← herr]
          rcases ih hndr last0 last1 _ hrec1 with ⟨ha, hb⟩
          have hpre : assocLookup last1 key = assocLookup last0 key := by
            have h5 := writeKinds_lookup_preserved output fsExists writeOk rest last0 key hknr
            rw [hrec1] at h5
            exact h5
          have hw2 : writeOne output fsExists (writeOk key) (assocLookup last1 key)
              key field = (none, evs, none) := by
            rw [hpre]
            exact hw1
          rw [writeKinds_cons_skip output fsExists writeOk key rest last1 field
            evs hf hw2]
          have hnoW : ∀ (key2 : Key) (fn : String),
              Event.writeFileHook key2 fn ∉ evs := by
            intro key2 fn hmem
            have h4 := (writeOne_writeFile_mem output fsExists (writeOk key)
              (assocLookup last0 key) key field key2 fn (by rw [hw1]; exact hmem)).2
            rw [hw1] at h4
            exact absurd h4 (by simp)
          constructor
          · intro key2 fn hmem
            rcases List.mem_append.mp hmem with h1 | h1
            · exact hnoW key2 fn h1
            · exact ha key2 fn h1
          · intro key2 fn hmem
            rw [← hevs1] at hmem
            rcases List.mem_append.mp hmem with h1 | h1
            · exact absurd h1 (hnoW key2 fn)
            · exact List.mem_append.mpr (Or.inr (hb key2 fn h1))
      | some fn0 =>
        cases err with
        | some e =>
          exact absurd hw1 (writeOne_not_wrote_fail output fsExists
            (writeOk key) (assocLookup last0 key) key field fn0 evs e)
        | none =>
          rw [writeKinds_cons_wrote output fsExists writeOk key rest last0 field
            evs fn0 hf hw1] at h
          simp only [Prod.mk.injEq] at h
          rcases h with ⟨hlast, hevs1, herr⟩
          rcases writeOne_wrote output fsExists (writeOk key) (assocLookup last0 key)
            key field fn0 evs none hw1 with ⟨bn, hfn, hres, hevs, -, hcl, -⟩
          have hrec1 : writeKinds output fsExists writeOk rest ((key, fn0) :: last0) =
              (last1,
               (writeKinds output fsExists writeOk rest ((key, fn0) :: last0)).2.1,
               none) := by
            rw [← hlast, ← herr]
          rcases ih hndr ((key, fn0) :: last0) last1 _ hrec1 with ⟨ha, hb⟩
          have hpre : assocLookup last1 key = some fn0 := by
            have h5 := writeKinds_lookup_preserved output fsExists writeOk rest
              ((key, fn0) :: last0) key hknr
            rw [hrec1] at h5
            rw [h5, assocLookup_cons, if_pos rfl]
          have hw2 : writeOne output fsExists (writeOk key) (assocLookup last1 key)
              key field = (none, [Event.skipDuplicate key fn0], none) := by
            rw [hpre, hres]
            exact writeOne_skip_dup output fsExists (writeOk key) key field bn hfn
              (hres ▸ hcl)
          rw [writeKinds_cons_skip output fsExists writeOk key rest last1 field
            [Event.skipDuplicate key fn0] hf hw2]
          constructor
          · intro key2 fn hmem
            rcases List.mem_append.mp hmem with h1 | h1
            · simp at h1
            · exact ha key2 fn h1
          · intro key2 fn hmem
            rw [← hevs1] at hmem
            rcases List.mem_append.mp hmem with h1 | h1
            · rw [hevs] at h1
              simp only [List.mem_cons, List.mem_singleton, List.not_mem_nil,
                or_false] at h1
              rcases h1 with h1 | h1
              · exact absurd h1 (by simp)
              · have hkk : key2 = key := by
                  have h6 := congrArg eventKey h1
                  simpa [eventKey] using h6
                have hff : fn = fn0 := by
                  cases h1
                  rfl
                subst hkk
                subst hff
                exact List.mem_append.mpr (Or.inl (by simp))
            · exact List.mem_append.mpr (Or.inr (hb key2 fn h1))

/-- C4: invoking the write phase twice with an unchanged configuration (and
hence unchanged resolved file paths) writes each file only once: the second
invocation writes nothing, and every kind that wrote in the first run is
skipped in the second with a duplicate-suppression log event, because the
per-kind record of the last file written matches the resolved path. -/
theorem C4_duplicate_write_suppressed :
    ∀ (registry : List Key) (fsExists : String → Bool) (writeOk : Key → Nat → Bool)
      (cfg cfg2 : Config) (evs1 : List Event),
      registry.Nodup →
      WriteExtraOutputs registry fsExists writeOk cfg = (cfg2, evs1, none) →
      (∀ key fn, Event.writeFileHook key fn ∉
        (WriteExtraOutputs registry fsExists writeOk cfg2).2.1) ∧
      (∀ key fn, Event.writeFileHook key fn ∈ evs1 →
        Event.skipDuplicate key fn ∈
          (WriteExtraOutputs registry fsExists writeOk cfg2).2.1) := by
  intro registry fsExists writeOk cfg cfg2 evs1 hnd h
  rw [WriteExtraOutputs_eq] at h
  cases hout : cfg.output with
  | none =>
    rw [hout] at h
    simp only [Prod.mk.injEq] at h
    rcases h with ⟨hc, he, -⟩
    subst hc
    rw [WriteExtraOutputs_eq]
    constructor
    · intro key fn
      simp [hout]
    · intro key fn hmem
      rw [← he] at hmem
      simp at hmem
  | some output =>
    rw [hout] at h
    dsimp only at h
    rcases hw : writeKinds output fsExists writeOk (activeKinds registry output)
      cfg.extra_last_file with ⟨last1, evsA, errA⟩
    rw [hw] at h
    dsimp only at h
    simp only [Prod.mk.injEq] at h
    rcases h with ⟨hc, he, herr⟩
    subst hc
    rcases writeKinds_second_run output fsExists writeOk (activeKinds registry output)
        (hnd.filter _) cfg.extra_last_file last1 evsA (by rw [hw, herr]) with ⟨ha, hb⟩
    rw [WriteExtraOutputs_eq]
    dsimp only
    constructor
    · intro key fn
      exact ha key fn
    · intro key fn hmem
      rw [← he] at hmem
      exact hb key fn hmem

/-- Witness for C4: a single file-mode kind is written by the first
invocation and skipped as a duplicate by the second. -/
theorem C4_duplicate_write_suppressed_witness :
    Event.writeFileHook "psf" "psf.fits" ∈
      (WriteExtraOutputs ["psf"] (fun _ => false) (fun _ _ => true) cfgEx).2.1 ∧
    Event.skipDuplicate "psf" "psf.fits" ∈
      (WriteExtraOutputs ["psf"] (fun _ => false) (fun _ _ => true)
        (WriteExtraOutputs ["psf"] (fun _ => false) (fun _ _ => true) cfgEx).1).2.1 :=
  ⟨by decide,
   (C4_duplicate_write_suppressed ["psf"] (fun _ => false) (fun _ _ => true) cfgEx
      _ _ (by decide) rfl).2 "psf" "psf.fits" (by decide)⟩

/-- C1 (amended): in the write phase the finalize hook of a kind runs
exactly once, immediately before that kind writes, when and only when the
kind reaches its write call: a file-mode kind not skipped by noclobber or
duplicate suppression (finalize runs even if the write then fails its
retries), or an hdu-mode kind reached without error. A kind with neither
target configured, or whose write is skipped, gets no finalize call. -/
theorem C1_finalize_before_write :
    (∀ (output : OutputSpec) (fsExists : String → Bool) (succeeds : Nat → Bool)
       (last : Option String) (key : Key) (field : FieldSpec),
      writeOne output fsExists succeeds last key field = (none, [], none) ∨
      (∃ fn, writeOne output fsExists succeeds last key field =
        (none, [Event.skipNoClobber key fn], none)) ∨
      (∃ fn, writeOne output fsExists succeeds last key field =
        (none, [Event.skipDuplicate key fn], none)) ∨
      (∃ fn, writeOne output fsExists succeeds last key field =
        (some fn, [Event.finalizeHook key, Event.writeFileHook key fn], none)) ∨
      writeOne output fsExists succeeds last key field =
        (none, [Event.finalizeHook key], some "io failure")) ∧
    (∀ (output : OutputSpec) (whFails : Key → Option String) (keys : List Key)
       (hdus : List (Int × Key)) (evs : List Event),
      hduLoop output whFails keys [] = .ok (hdus, evs) →
      evs = (configuredSlots output keys).flatMap
        (fun p => [Event.finalizeHook p.2, Event.writeHduHook p.2 p.1])) :=
  ⟨fun output fsExists succeeds last key field =>
      writeOne_cases output fsExists succeeds last key field,
   fun output whFails keys hdus evs h =>
      (hduLoop_ok output whFails keys [] hdus evs h).2⟩

/-- Witness for the amended C1 on the three-kind hdu scenario: the trace is
finalize immediately followed by writeHdu, once per hdu-mode kind. -/
theorem C1_finalize_before_write_witness :
    [Event.finalizeHook "psf", Event.writeHduHook "psf" 2,
     Event.finalizeHook "weight", Event.writeHduHook "weight" 1,
     Event.finalizeHook "badpix", Event.writeHduHook "badpix" 3] =
      (configuredSlots outputHduEx registryHduEx).flatMap
        (fun p => [Event.finalizeHook p.2, Event.writeHduHook p.2 p.1]) :=
  C1_finalize_before_write.2 outputHduEx (fun _ => none) registryHduEx
    [(2, "psf"), (1, "weight"), (3, "badpix")]
    [Event.finalizeHook "psf", Event.writeHduHook "psf" 2,
     Event.finalizeHook "weight", Event.writeHduHook "weight" 1,
     Event.finalizeHook "badpix", Event.writeHduHook "badpix" 3] rfl

/-- Counterexample to C1 as stated: an active kind configured with neither
a file target nor an hdu target never has its finalize hook invoked by
either write entry point (both traces are empty), although the claim says
finalize is invoked exactly once for every active kind. -/
theorem C1_counterexample :
    activeKinds ["psf"] outputEmptyEx = ["psf"] ∧
    (WriteExtraOutputs ["psf"] (fun _ => false) (fun _ _ => true) cfgEmptyEx).2.1 = [] ∧
    (BuildExtraOutputHDUs ["psf"] (fun _ => none) cfgEmptyEx 1).2 = .ok ([], []) :=
  ⟨rfl, rfl, rfl⟩

theorem assocLookup_isSome_iff {α β : Type} [DecidableEq α] (l : List (α × β)) (a : α) :
    (assocLookup l a).isSome = true ↔ a ∈ l.map Prod.fst := by
  induction l with
  | nil => simp [assocLookup]
  | cons p rest ih =>
    rcases p with ⟨x, y⟩
    by_cases hx : x = a
    · simp [assocLookup_cons, hx]
    · have hx2 : ¬ (a = x) := fun h => hx h.symm
      simp [assocLookup_cons, hx, hx2, ih]

theorem assocLookup_mem {α β : Type} [DecidableEq α] (l : List (α × β)) (a : α) (b : β) :
    assocLookup l a = some b → (a, b) ∈ l := by
  induction l with
  | nil => intro h; simp [assocLookup] at h
  | cons p rest ih =>
    rcases p with ⟨x, y⟩
    intro h
    rw [assocLookup_cons] at h
    by_cases hx : x = a
    · rw [if_pos hx] at h
      have hy := Option.some.inj h
      subst hx
      subst hy
      exact List.mem_cons_self _ _
    · rw [if_neg hx] at h
      exact List.mem_cons_of_mem _ (ih h)

theorem mem_hduRange (first : Int) (n : Nat) (h : Int) :
    h ∈ hduRange first n ↔ first ≤ h ∧ h < first + (n : Int) := by
  unfold hduRange
  rw [List.mem_map]
  constructor
  · rintro ⟨i, hi, hieq⟩
    rw [List.mem_range] at hi
    omega
  · rintro ⟨h1, h2⟩
    refine ⟨(h - first).toNat, List.mem_range.mpr (by omega), ?_⟩
    show first + ((h - first).toNat : Int) = h
    omega

theorem nodup_hduRange (first : Int) (n : Nat) : (hduRange first n).Nodup := by
  unfold hduRange
  refine List.Nodup.map ?_ (List.nodup_range n)
  intro i j hij
  have hij2 : first + (i : Int) = first + (j : Int) := hij
  omega

theorem length_hduRange (first : Int) (n : Nat) : (hduRange first n).length = n := by
  unfold hduRange
  rw [List.length_map, List.length_range]

theorem hduRange_getElem? (first : Int) (n i : Nat) (hi : i < n) :
    (hduRange first n)[i]? = some (first + (i : Int)) := by
  unfold hduRange
  rw [List.getElem?_map, List.getElem?_range hi]
  rfl

/-- Under a pointwise success condition, filterMap keeps the length and acts
pointwise on get?. -/
theorem filterMap_get?_of_isSome {α β : Type} (f : α → Option β) :
    ∀ (l : List α), (∀ a ∈ l, (f a).isSome = true) →
      (l.filterMap f).length = l.length ∧
      ∀ i : Nat, (l.filterMap f)[i]? = (l[i]?).bind f := by
  intro l
  induction l with
  | nil =>
    intro _
    refine ⟨rfl, ?_⟩
    intro i
    simp
  | cons a t ih =>
    intro hall
    rcases hsa : f a with _ | b
    · exact absurd (hall a (List.mem_cons_self a t)) (by simp [hsa])
    · have hfm : (a :: t).filterMap f = b :: t.filterMap f := by
        rw [List.filterMap_cons, hsa]
      rcases ih (fun x hx => hall x (List.mem_cons_of_mem a hx)) with ⟨hlen, hget⟩
      refine ⟨by rw [hfm]; simp [hlen], ?_⟩
      intro i
      cases i with
      | zero => simp [hfm, hsa]
      | succ j => simp [hfm, hget j]

/-- Two duplicate-free lists of equal length with one contained in the
other have the same members. -/
theorem nodup_subset_same_length_mem {α : Type} (l1 l2 : List α)
    (h1 : l1.Nodup) (hsub : l1 ⊆ l2) (hlen : l2.length ≤ l1.length) :
    ∀ a, a ∈ l2 → a ∈ l1 := by
  have hp := (List.subperm_of_subset h1 hsub).perm_of_length_le hlen
  intro a ha
  exact hp.mem_iff.mpr ha

/-- The hdu collection loop succeeds iff the configured slots of the
remaining keys are positive, duplicate free, and disjoint from the already
accumulated ones. -/
theorem hduLoop_isOk_iff (output : OutputSpec) (whFails : Key → Option String)
    (hwh : ∀ k, whFails k = none) :
    ∀ (keys : List Key) (acc : List (Int × Key)),
      exceptOk (hduLoop output whFails keys acc) = true ↔
      (((configuredSlots output keys).map Prod.fst).Nodup ∧
        ∀ h ∈ (configuredSlots output keys).map Prod.fst,
          0 < h ∧ ¬ h ∈ acc.map Prod.fst) := by
  intro keys
  induction keys with
  | nil =>
    intro acc
    rw [hduLoop]
    simp [exceptOk, configuredSlots]
  | cons key rest ih =>
    intro acc
    cases hf : assocLookup output.kinds key with
    | none =>
      rw [hduLoop, hf]
      have hcs : configuredSlots output (key :: rest) = configuredSlots output rest := by
        simp [configuredSlots, List.filterMap_cons, hf]
      rw [hcs]
      exact ih acc
    | some field =>
      cases hh : field.hdu with
      | none =>
        rw [hduLoop, hf]
        dsimp only
        rw [hh]
        have hcs : configuredSlots output (key :: rest) = configuredSlots output rest := by
          simp [configuredSlots, List.filterMap_cons, hf, hh]
        rw [hcs]
        exact ih acc
      | some hn =>
        rw [hduLoop, hf]
        dsimp only
        rw [hh]
        dsimp only
        have hcs : configuredSlots output (key :: rest) =
            (hn, key) :: configuredSlots output rest := by
          simp [configuredSlots, List.filterMap_cons, hf, hh]
        rw [hcs]
        by_cases hbad : hn ≤ 0 ∨ (assocLookup acc hn).isSome = true
        · rw [if_pos hbad]
          simp only [exceptOk, Bool.false_eq_true, false_iff]
          rintro ⟨hnd, hall⟩
          rcases hall hn (by simp) with ⟨hpos, hnotin⟩
          rcases hbad with hb | hb
          · omega
          · exact hnotin ((assocLookup_isSome_iff acc hn).mp hb)
        · rw [if_neg hbad]
          rw [hwh key]
          push_neg at hbad
          have hpos : 0 < hn := by omega
          have hnotin : ¬ hn ∈ acc.map Prod.fst :=
            fun hm => hbad.2 ((assocLookup_isSome_iff acc hn).mpr hm)
          have hred : exceptOk
              (match hduLoop output whFails rest (acc ++ [(hn, key)]) with
               | .error e => (.error e : Except String (List (Int × Key) × List Event))
               | .ok (hdus2, evs) =>
                 .ok (hdus2,
                   Event.finalizeHook key :: Event.writeHduHook key hn :: evs)) =
              exceptOk (hduLoop output whFails rest (acc ++ [(hn, key)])) := by
            rcases hduLoop output whFails rest (acc ++ [(hn, key)]) with e | ⟨h2, evs⟩ <;> rfl
          rw [hred, ih (acc ++ [(hn, key)])]
          simp only [List.map_cons, List.map_append, List.map_nil, List.nodup_cons,
            List.mem_cons, List.mem_append, List.mem_nil_iff, or_false]
          constructor
          · rintro ⟨hnd, hall⟩
            refine ⟨⟨?_, hnd⟩, ?_⟩
            · intro hmem
              rcases hall hn hmem with ⟨-, hni⟩
              exact hni (Or.inr rfl)
            · intro h2 hm
              rcases hm with rfl | hm
              · exact ⟨hpos, hnotin⟩
              · rcases hall h2 hm with ⟨hp2, hni2⟩
                exact ⟨hp2, fun hin => hni2 (Or.inl hin)⟩
          · rintro ⟨⟨hns, hnd⟩, hall⟩
            refine ⟨hnd, ?_⟩
            intro h2 hm
            rcases hall h2 (Or.inr hm) with ⟨hp2, hni2⟩
            refine ⟨hp2, ?_⟩
            rintro (hin | rfl)
            · exact hni2 hin
            · exact hns hm

/-- C2 (amended): provided the configured first index is at least 1 (and
the hdu-producing builders do not themselves raise), BuildExtraOutputHDUs
raises exactly when the configured slot numbers of the active hdu-mode
kinds fail to form a contiguous, duplicate-free run starting at the first
index, and on success returns the collected artifacts in ascending slot
order: the i-th artifact comes from the kind whose configured slot is
first + i. For a first index below 1 the equivalence fails, because slot
numbers at most 0 are rejected outright regardless of first. -/
theorem C2_hdu_contiguity :
    ∀ (registry : List Key) (cfg : Config) (output : OutputSpec) (first : Int)
      (whFails : Key → Option String),
      cfg.output = some output →
      (∀ k, whFails k = none) →
      1 ≤ first →
      (exceptOk (BuildExtraOutputHDUs registry whFails cfg first).2 = true ↔
        contiguousRun first
          ((configuredSlots output (activeKinds registry output)).map Prod.fst)) ∧
      (∀ (arts : List Key) (evs : List Event),
        (BuildExtraOutputHDUs registry whFails cfg first).2 = .ok (arts, evs) →
        arts.length = (configuredSlots output (activeKinds registry output)).length ∧
        ∀ i : Nat, i < arts.length →
          ∃ k, arts[i]? = some k ∧ slotOf output k = some (first + (i : Int))) := by
  intro registry cfg output first whFails hout hwh hfirst
  unfold BuildExtraOutputHDUs
  rw [hout]
  dsimp only
  have hiff := hduLoop_isOk_iff output whFails hwh (activeKinds registry output) []
  rcases hl : hduLoop output whFails (activeKinds registry output) [] with e | p
  · rw [hl] at hiff
    simp only [exceptOk, Bool.false_eq_true, false_iff] at hiff
    constructor
    · simp only [exceptOk, Bool.false_eq_true, false_iff]
      intro hc
      apply hiff
      unfold contiguousRun at hc
      refine ⟨hc.1, ?_⟩
      intro h hm
      rcases hc.2 h hm with ⟨hb1, hb2⟩
      exact ⟨by omega, by simp⟩
    · intro arts evs heq
      exact absurd heq (by simp)
  · rcases p with ⟨hdus, evs0⟩
    dsimp only
    rw [hl] at hiff
    simp only [exceptOk, true_iff] at hiff
    rcases hiff with ⟨hnd, hall0⟩
    rcases hduLoop_ok output whFails (activeKinds registry output) [] hdus evs0 hl
      with ⟨hhd, hevs⟩
    simp only [List.nil_append] at hhd
    rw [← hhd] at hnd hall0 ⊢
    by_cases hrange : (hduRange first hdus.length).all
        (fun h => (assocLookup hdus h).isSome) = true
    · rw [if_pos hrange]
      have hsub : ∀ h ∈ hduRange first hdus.length, h ∈ hdus.map Prod.fst := by
        intro h hm
        exact (assocLookup_isSome_iff hdus h).mp (List.all_eq_true.mp hrange h hm)
      have hmem2 : ∀ h ∈ hdus.map Prod.fst, h ∈ hduRange first hdus.length := by
        apply nodup_subset_same_length_mem _ _ (nodup_hduRange first hdus.length) hsub
        rw [length_hduRange, List.length_map]
      constructor
      · simp only [exceptOk, true_iff]
        unfold contiguousRun
        refine ⟨hnd, ?_⟩
        intro h hm
        have := (mem_hduRange first hdus.length h).mp (hmem2 h hm)
        rw [List.length_map]
        exact this
      · intro arts evs heq
        simp only [Except.ok.injEq, Prod.mk.injEq] at heq
        rcases heq with ⟨harts, -⟩
        have hfm := filterMap_get?_of_isSome (fun h => assocLookup hdus h)
          (hduRange first hdus.length)
          (fun h hm => List.all_eq_true.mp hrange h hm)
        have hlen : arts.length = hdus.length := by
          rw [← harts, hfm.1, length_hduRange]
        refine ⟨by rw [hlen], ?_⟩
        intro i hi
        have hin : i < hdus.length := by rw [← hlen]; exact hi
        have hget : arts[i]? = assocLookup hdus (first + (i : Int)) := by
          rw [← harts, hfm.2 i, hduRange_getElem? first hdus.length i hin]
          rfl
        have hmemr : (first + (i : Int)) ∈ hduRange first hdus.length := by
          rw [mem_hduRange]
          omega
        have hsome : (assocLookup hdus (first + (i : Int))).isSome = true :=
          List.all_eq_true.mp hrange _ hmemr
        rcases hk : assocLookup hdus (first + (i : Int)) with _ | k
        · rw [hk] at hsome
          exact absurd hsome (by simp)
        · refine ⟨k, by rw [hget, hk], ?_⟩
          have hmemp := assocLookup_mem hdus (first + (i : Int)) k hk
          exact (configuredSlots_mem output (activeKinds registry output)
            (first + (i : Int), k) (hhd ▸ hmemp)).2
    · rw [if_neg hrange]
      constructor
      · simp only [exceptOk, Bool.false_eq_true, false_iff]
        intro hc
        unfold contiguousRun at hc
        have hsub2 : hdus.map Prod.fst ⊆ hduRange first hdus.length := by
          intro h hm
          rw [mem_hduRange]
          have := hc.2 h hm
          rw [List.length_map] at this
          exact this
        have hmem3 := nodup_subset_same_length_mem (hdus.map Prod.fst)
          (hduRange first hdus.length) hc.1 hsub2
          (by rw [length_hduRange, List.length_map])
        have hfalse : (hduRange first hdus.length).all
            (fun h => (assocLookup hdus h).isSome) = false :=
          Bool.not_eq_true _ ▸ Bool.of_not_eq_true hrange
        rcases List.all_eq_false.mp hfalse with ⟨h0, hm0, hp0⟩
        apply hp0
        exact (assocLookup_isSome_iff hdus h0).mpr (hmem3 h0 hm0)
      · intro arts evs heq
        exact absurd heq (by simp)

/-- Counterexample to C2 as stated: with the configured first index 0, a
single active kind at slot 0 has slots forming a contiguous duplicate-free
run starting at that first index, yet BuildExtraOutputHDUs raises, because
slot numbers at most 0 are rejected regardless of the first index. -/
theorem C2_counterexample :
    contiguousRun 0
      ((configuredSlots outputHdu0Ex (activeKinds ["psf"] outputHdu0Ex)).map
        Prod.fst) ∧
    (BuildExtraOutputHDUs ["psf"] (fun _ => none) cfgHdu0Ex 0).2 =
      Except.error "invalid or duplicate hdu" :=
  ⟨by decide, rfl⟩

/-- Witness for the amended C2 on the slots 2, 1, 3 scenario with first
index 1: the phase succeeds exactly because the slots form a contiguous
run, and the first returned artifact is the kind configured at slot 1. -/
theorem C2_hdu_contiguity_witness :
    ((exceptOk (BuildExtraOutputHDUs registryHduEx (fun _ => none) cfgHduEx 1).2 = true ↔
      contiguousRun 1
        ((configuredSlots outputHduEx (activeKinds registryHduEx outputHduEx)).map
          Prod.fst)) ∧
     ∃ k, (["weight", "psf", "badpix"] : List Key)[0]? = some k ∧
       slotOf outputHduEx k = some 1) :=
  ⟨(C2_hdu_contiguity registryHduEx cfgHduEx outputHduEx 1 (fun _ => none) rfl
      (fun _ => rfl) (by decide)).1,
   ((C2_hdu_contiguity registryHduEx cfgHduEx outputHduEx 1 (fun _ => none) rfl
      (fun _ => rfl) (by decide)).2 ["weight", "psf", "badpix"]
      ((configuredSlots outputHduEx registryHduEx).flatMap
        (fun p => [Event.finalizeHook p.2, Event.writeHduHook p.2 p.1])) rfl).2 0
      (by decide)⟩

end GalSim
